import Mathlib

/-!
Shallow embedding of the grout convention-driven HTTP router
(`src/grout.ts`, `src/reflection.ts`).

Strings are modelled as `List Char` (`Str`), since the routing and
validation code is character-level string manipulation.  JavaScript
runtime values are modelled by the inductive `JSValue`; `undefined` is
an explicit constructor because the dispatcher distinguishes it from
every other value.  Platform primitives that the code calls but does
not define (`JSON.parse`, `JSON.stringify`, form-data decoding) are
taken as parameters of the functions that use them.
-/

/-- Strings as character lists. -/
abbrev Str := List Char

/-- Convert a Lean string literal to the character-list representation. -/
def chars (s : String) : Str := s.data

/-- JavaScript `String.prototype.split` with a single-character separator:
splits on every occurrence of `sep`, keeping empty pieces. -/
def splitOnChar (sep : Char) : Str → List Str
  | [] => [[]]
  | c :: cs =>
    match splitOnChar sep cs with
    | [] => [[]]
    | t :: ts => if c = sep then [] :: t :: ts else (c :: t) :: ts

/-- JavaScript `String.prototype.replace(pat, repl)` with a string pattern:
replaces only the first (leftmost) occurrence of `pat`, if any. -/
def replaceFirst (pat repl : Str) : Str → Str
  | [] => if pat.isPrefixOf ([] : Str) then repl else []
  | c :: cs =>
    if pat.isPrefixOf (c :: cs) then repl ++ (c :: cs).drop pat.length
    else c :: replaceFirst pat repl cs

/-- The position of the leftmost occurrence of `pat` in `s`, if any
(the smallest index at which `pat` is a prefix of the remaining text). -/
def firstMatchPos (pat s : Str) : Option Nat :=
  (List.range (s.length + 1)).find? (fun i => pat.isPrefixOf (s.drop i))

/-- Replacement of the leftmost occurrence, written directly from the
description "replace the first occurrence of `pat`": splice `repl` in at
the smallest matching index. -/
def replaceAtFirst (pat repl s : Str) : Str :=
  match firstMatchPos pat s with
  | none => s
  | some i => s.take i ++ repl ++ s.drop (i + pat.length)

/-- `kebabCase` from `grout.ts`: every ASCII capital letter is replaced by
a dash followed by its lower-case form (the regex `([A-Z])` with the `g`
flag applies at every position). -/
def kebabCase : Str → Str
  | [] => []
  | c :: cs =>
    if 'A' ≤ c ∧ c ≤ 'Z' then '-' :: c.toLower :: kebabCase cs
    else c :: kebabCase cs

/-- JavaScript whitespace accepted by `parseInt` before the number. -/
def isJsSpace (c : Char) : Bool :=
  c == ' ' || c == '\t' || c == '\n' || c == '\r' || c == '\x0b' || c == '\x0c'

/-- Numeric value of a list of decimal digits. -/
def natOfDigits : Str → Nat :=
  List.foldl (fun n c => n * 10 + (c.toNat - 48)) 0

/-- Numeric value of a list of hexadecimal digits. -/
def natOfHexDigits : Str → Nat :=
  List.foldl
    (fun n c =>
      n * 16 +
        (if c.isDigit then c.toNat - 48
         else if 'a' ≤ c ∧ c ≤ 'f' then c.toNat - 87
         else c.toNat - 55))
    0

/-- Is `c` a hexadecimal digit? -/
def isHexDigit (c : Char) : Bool :=
  c.isDigit || ('a' ≤ c && c ≤ 'f') || ('A' ≤ c && c ≤ 'F')

/-- Magnitude part of JavaScript `parseInt` (radix auto-detection: a
`0x`/`0X` prefix switches to hexadecimal); `none` models `NaN`. -/
def parseIntMag (s : Str) : Option Nat :=
  match s with
  | '0' :: c :: rest =>
    if c = 'x' ∨ c = 'X' then
      let ds := rest.takeWhile isHexDigit
      if ds = [] then none else some (natOfHexDigits ds)
    else
      let ds := (('0' : Char) :: c :: rest).takeWhile Char.isDigit
      if ds = [] then none else some (natOfDigits ds)
  | _ =>
    let ds := s.takeWhile Char.isDigit
    if ds = [] then none else some (natOfDigits ds)

/-- JavaScript `parseInt(s)` (no explicit radix): skip leading whitespace,
an optional sign, then the maximal digit prefix; `none` models `NaN`. -/
def parseIntJS (s : Str) : Option Int :=
  match s.dropWhile isJsSpace with
  | '-' :: r => (parseIntMag r).map (fun n => -(n : Int))
  | '+' :: r => (parseIntMag r).map (fun n => (n : Int))
  | r => (parseIntMag r).map (fun n => (n : Int))

/-- JavaScript runtime values as far as grout observes them.  `undef`
models `undefined`; `classObj` models an object whose constructor has a
name other than `"Object"` (its fields are irrelevant to grout, which
only ever reads the constructor name). -/
inductive JSValue where
  | undef : JSValue
  | null : JSValue
  | bool (b : Bool) : JSValue
  | num (n : Int) : JSValue
  | str (s : Str) : JSValue
  | arr (elems : List JSValue) : JSValue
  | obj (fields : List (Str × JSValue)) : JSValue
  | classObj (ctorName : Str) : JSValue

/-- JavaScript `typeof` restricted to the values above (`typeof null`
is `"object"`). -/
def typeofJs : JSValue → Str
  | .undef => chars "undefined"
  | .null => chars "object"
  | .bool _ => chars "boolean"
  | .num _ => chars "number"
  | .str _ => chars "string"
  | .arr _ => chars "object"
  | .obj _ => chars "object"
  | .classObj _ => chars "object"

/-- JavaScript truthiness (`undefined`, `null`, `false`, `0`, `""` are
falsy; every array or object is truthy). -/
def truthy : JSValue → Bool
  | .undef => false
  | .null => false
  | .bool b => b
  | .num n => n != 0
  | .str s => !s.isEmpty
  | .arr _ => true
  | .obj _ => true
  | .classObj _ => true

/-- Is the value `undefined`? -/
def isUndef : JSValue → Bool
  | .undef => true
  | _ => false

/-- JavaScript strict equality of a value against a string literal
(`v === "lit"` is true only when `v` is that exact string). -/
def jsEqStr (v : JSValue) (s : Str) : Bool :=
  match v with
  | .str t => t == s
  | _ => false

/-- JavaScript `a || b`: `a` when truthy, otherwise `b`. -/
def jsOr (a b : JSValue) : JSValue := if truthy a then a else b

/-- Property access `record[key]` on a plain object modelled as an
association list: `undefined` when the key is absent. -/
def getJs : List (Str × JSValue) → Str → JSValue
  | [], _ => .undef
  | (k2, v) :: rest, k => if k2 = k then v else getJs rest k

/-- Property assignment `record[key] = v`: update in place, or append. -/
def setJs : List (Str × JSValue) → Str → JSValue → List (Str × JSValue)
  | [], k, v => [(k, v)]
  | (k2, v2) :: rest, k, v =>
    if k2 = k then (k, v) :: rest else (k2, v2) :: setJs rest k v

mutual

/-- JavaScript string coercion `"" + v` for the values grout interpolates
into messages.  An array stringifies as its elements joined by commas
with `null`/`undefined` rendered empty; plain objects render as
`[object Object]`. -/
def jsToString : JSValue → Str
  | .undef => chars "undefined"
  | .null => chars "null"
  | .bool true => chars "true"
  | .bool false => chars "false"
  | .num n => (toString n).data
  | .str s => s
  | .arr es => List.intercalate (chars ",") (jsToStringList es)
  | .obj _ => chars "[object Object]"
  | .classObj _ => chars "[object Object]"

/-- Stringification of array elements for `jsToString`. -/
def jsToStringList : List JSValue → List Str
  | [] => []
  | .undef :: vs => [] :: jsToStringList vs
  | .null :: vs => [] :: jsToStringList vs
  | v :: vs => jsToString v :: jsToStringList vs
end

/-- Insertion-order deduplication of a list of strings, modelling
`new Set(list)` iterated back out (a JS `Set` keeps first occurrences
in insertion order). -/
def dedupFirstAux : List Str → List Str → List Str
  | [], _ => []
  | x :: xs, seen =>
    if seen.contains x then dedupFirstAux xs seen else x :: dedupFirstAux xs (x :: seen)

/-- See `dedupFirstAux`. -/
def dedupFirst (l : List Str) : List Str := dedupFirstAux l []

/-- Lexicographic comparison of strings by character code, as the default
JavaScript `Array.prototype.sort` comparator orders strings. -/
def strLtB : Str → Str → Bool
  | [], [] => false
  | [], _ :: _ => true
  | _ :: _, [] => false
  | a :: as, b :: bs => if a = b then strLtB as bs else decide (a < b)

/-- Non-strict version of `strLtB`, as a relation for sorting. -/
def strLe (a b : Str) : Prop := strLtB b a = false

instance : DecidableRel strLe := fun a b => by unfold strLe; infer_instance

mutual

/-- `typeOf` from `reflection.ts`: map a runtime value to a normalized
type-descriptor string.  (`bigint`, `symbol` and function values never
reach grout's reflection and are not modelled; a JS `Map` built from an
object's entries has the entries' keys, which are distinct.) -/
def typeOf (v : JSValue) (useFullTypes : Bool) : Str :=
  match v with
  | .undef => chars "unknown"
  | .null => chars "null"
  | .bool _ => chars "boolean"
  | .num _ => chars "number"
  | .str _ => chars "string"
  | .arr es =>
    let innerTypes := dedupFirst (typeOfList es useFullTypes)
    if innerTypes.length = 0 then chars "unknown[]"
    else if 1 < innerTypes.length ∧ useFullTypes = false then chars "unknown[]"
    else
      let fullType := List.intercalate (chars "|") (List.insertionSort strLe innerTypes)
      (if innerTypes.length = 1 then fullType else chars "(" ++ fullType ++ chars ")") ++
        chars "[]"
  | .classObj c => c
  | .obj fs =>
    if useFullTypes = false then chars "object"
    else
      chars "\x7b" ++
        List.intercalate (chars ",") (List.insertionSort strLe (typeOfFields fs useFullTypes)) ++
        chars "\x7d"

/-- Element types of an array, in order (for `typeOf`). -/
def typeOfList : List JSValue → Bool → List Str
  | [], _ => []
  | v :: vs, full => typeOf v full :: typeOfList vs full

/-- Entries of a plain object rendered as `key:type` (for `typeOf`). -/
def typeOfFields : List (Str × JSValue) → Bool → List Str
  | [], _ => []
  | (k, v) :: fs, full => (k ++ chars ":" ++ typeOf v full) :: typeOfFields fs full

end

/-- The HTTP methods a member name may start with (`grout.ts` line 8). -/
def HTTP_METHODS : List Str :=
  [chars "DELETE", chars "GET", chars "HEAD", chars "OPTIONS", chars "PATCH",
   chars "POST", chars "PUT"]

/-- A route extracted from a member name.  The real `Route` also carries
the compiled `URLPattern` (a function of `pathname`, modelled by
`patternTest`), the handler and its reflected schema; those fields do not
participate in route ordering or lookup and are modelled where needed. -/
structure Route where
  pathname : Str
  method : Str
deriving DecidableEq

/-- Decode one member name (`grout.ts` lines 85-95): replace the first
`_$_` by `.`, then the first `$` by `:`, split on `_`; the first token,
uppercased, must be an HTTP method, else the member is skipped; the rest,
joined by `/` after the base, is the pathname. -/
def decodeRoute (base : Str) (name : Str) : Option Route :=
  let parts :=
    splitOnChar '_' (replaceFirst (chars "$") (chars ":") (replaceFirst (chars "_$_") (chars ".") name))
  match parts with
  | [] => none
  | m :: rest =>
    let method := m.map Char.toUpper
    if HTTP_METHODS.contains method then
      some ⟨base ++ (if rest.isEmpty then [] else chars "/") ++ List.intercalate (chars "/") rest,
            method⟩
    else none

/-- `decodeRoute` re-stated with the marker replacements written as
explicit leftmost-occurrence splices (`replaceAtFirst`), following the
description "only the first occurrence of each marker is decoded". -/
def decodeRouteSpec (base : Str) (name : Str) : Option Route :=
  let parts :=
    splitOnChar '_'
      (replaceAtFirst (chars "$") (chars ":") (replaceAtFirst (chars "_$_") (chars ".") name))
  match parts with
  | [] => none
  | m :: rest =>
    let method := m.map Char.toUpper
    if HTTP_METHODS.contains method then
      some ⟨base ++ (if rest.isEmpty then [] else chars "/") ++ List.intercalate (chars "/") rest,
            method⟩
    else none

/-- Number of path captures as the sort comparator counts them
(lines 100-101): `pathname.split(":").length - 1`. -/
def captures (r : Route) : Nat := (splitOnChar ':' r.pathname).length - 1

/-- The route order induced by the comparator of `extractRoutes`
(lines 99-104): fewer captures first; among equal capture counts, longer
pathname first. -/
def routeLE (r1 r2 : Route) : Prop :=
  captures r1 < captures r2 ∨
    (captures r1 = captures r2 ∧ r2.pathname.length ≤ r1.pathname.length)

instance : DecidableRel routeLE := fun r1 r2 => by unfold routeLE; infer_instance

instance : IsTotal Route routeLE := ⟨by intro a b; unfold routeLE; omega⟩

instance : IsTrans Route routeLE := ⟨by intro a b c; unfold routeLE; omega⟩

/-- `extractRoutes` (lines 65-108) on a controller modelled as the list of
its callable member names in enumeration order (prototype members first,
then own members; `constructor` and non-functions are already excluded):
decode each name, skip the ones not starting with an HTTP method, and
sort with the specificity comparator.  JavaScript's `Array.prototype.sort`
is stable and comparator-consistent, which insertion sort realises.  The
per-controller memoization cache is elided: a cache hit returns the same
list unchanged. -/
def extractRoutes (names : List Str) (base : Str) : List Route :=
  List.insertionSort routeLE (names.filterMap (decodeRoute base))

/-- The `/`-separated segments of a pathname or URL path. -/
def segs (p : Str) : List Str := splitOnChar '/' p

/-- Segment-wise matching of a URLPattern pathname against a URL path:
a pattern segment starting with `:` is a named capture matching any
non-empty segment, anything else matches literally. -/
def segMatch : List Str → List Str → Bool
  | [], [] => true
  | p :: ps, u :: us =>
    (match p with
     | ':' :: _ => !u.isEmpty
     | _ => p == u) && segMatch ps us
  | _, _ => false

/-- `route.pattern.test(url)` for the patterns grout compiles from its
pathnames, applied to the URL's path component. -/
def patternTest (pathname urlPath : Str) : Bool :=
  segMatch (segs pathname) (segs urlPath)

/-- `matchRoute` (lines 110-118): the first route in specificity order
whose method and pattern both match. -/
def matchRoute (names : List Str) (base method urlPath : Str) : Option Route :=
  (extractRoutes names base).find? (fun r => r.method == method && patternTest r.pathname urlPath)

/-- `countRoutes` (lines 120-127): how many routes\x27 patterns match the
URL, regardless of method. -/
def countRoutes (names : List Str) (base urlPath : Str) : Nat :=
  (extractRoutes names base).countP (fun r => patternTest r.pathname urlPath)

/-- An HTTP response as far as grout constructs one. -/
structure HttpResponse where
  status : Nat
  body : Str
  contentType : Str
deriving DecidableEq

/-- `contentType("json")` from the standard media-types module. -/
def jsonCT : Str := chars "application/json; charset=UTF-8"

/-- Outcome of the lookup phase of `handleOne`: a response, the
"not handled" sentinel `undefined`, or a matched route to dispatch. -/
inductive LookupOutcome where
  | notHandled
  | respond (r : HttpResponse)
  | matched (r : Route)
deriving DecidableEq

/-- The route-lookup phase of `handleOne` (lines 238-250): no matching
route but at least one pattern match means 405 with an explanatory
message; no pattern match at all means the sentinel `undefined`. -/
def lookupPhase (names : List Str) (base method urlPath : Str) : LookupOutcome :=
  match matchRoute names base method urlPath with
  | some r => .matched r
  | none =>
    if 0 < countRoutes names base urlPath then
      .respond ⟨405,
        chars "\x7b\"message\":\"A route exists for this URL, but not for method \x27" ++
          method ++ chars "\x27\"\x7d",
        jsonCT⟩
    else .notHandled

/-- A JSON-schema property as `validate` consumes it (the optional
`description`, `enum`, `items` and `minimum` fields are never read by the
dispatcher and are elided). -/
structure Property where
  type : Str
  default : JSValue

/-- The failure conditions of `Deno.errors` that grout maps to statuses;
`other` stands for any other thrown condition. -/
inductive DenoError where
  | alreadyExists (msg : Str)
  | invalidData (msg : Str)
  | notFound (msg : Str)
  | notSupported (msg : Str)
  | permissionDenied (msg : Str)
  | other (name msg : Str)
deriving DecidableEq

/-- The loop body of `validate` (lines 137-183) over the remaining schema
properties, carrying the `parameters` record (initialised to the declared
defaults).  The three `typeof` tests are mutually exclusive, so the
sequential `if`s of the source are an `if`/`else` chain here.
`JSON.parse` is the `jsonParse` parameter; `none` models a parse throw. -/
def validateLoop (jsonParse : Str → Option JSValue) (req : List (Str × JSValue)) :
    List (Str × Property) → List (Str × JSValue) → Except DenoError (List (Str × JSValue))
  | [], params => .ok params
  | (fpn, prop) :: rest, params =>
    let fpv := prop.default
    let rpv := jsOr (getJs req fpn) (getJs req (kebabCase fpn))
    if isUndef fpv && isUndef rpv then
      .error (.invalidData (chars "Parameter \x27" ++ fpn ++ chars "\x27 is required"))
    else
      let params := setJs params fpn rpv
      if typeofJs fpv == chars "boolean" && !isUndef rpv then
        if !jsEqStr rpv (chars "true") && !jsEqStr rpv (chars "false") then
          .error (.invalidData (chars "Parameter \x27" ++ fpn ++ chars "\x27 with value \x27" ++
            jsToString rpv ++ chars "\x27 is not of type \x27boolean\x27"))
        else validateLoop jsonParse req rest (setJs params fpn (.bool (jsEqStr rpv (chars "true"))))
      else if typeofJs fpv == chars "number" && !isUndef rpv then
        match parseIntJS (jsToString rpv) with
        | none =>
          .error (.invalidData (chars "Parameter \x27" ++ fpn ++ chars "\x27 with value \x27" ++
            jsToString rpv ++ chars "\x27 is not of type \x27number\x27"))
        | some n => validateLoop jsonParse req rest (setJs params fpn (.num n))
      else if typeofJs fpv == chars "object" && !isUndef rpv then
        match jsonParse (jsToString rpv) with
        | none =>
          .error (.invalidData (chars "Parameter \x27" ++ fpn ++ chars "\x27 with value \x27" ++
            jsToString rpv ++ chars "\x27 is not of type \x27object\x27"))
        | some v => validateLoop jsonParse req rest (setJs params fpn v)
      else validateLoop jsonParse req rest params

/-- `validate` (lines 129-186): the schema's properties in declared order
(JS object keys, hence distinct names), validated against the request
parameters; the result is the parameter record handed positionally to the
handler. -/
def validate (jsonParse : Str → Option JSValue) (props : List (Str × Property))
    (req : List (Str × JSValue)) : Except DenoError (List (Str × JSValue)) :=
  validateLoop jsonParse req props (props.map (fun kv => (kv.1, kv.2.default)))

/-- Status assignment of the central catch (lines 313-318). -/
def errorStatus : DenoError → Nat
  | .alreadyExists _ => 409
  | .invalidData _ => 400
  | .notFound _ => 404
  | .notSupported _ => 501
  | .permissionDenied _ => 401
  | .other _ _ => 500

/-- Does the request-parameter record have the key (the JS `in` test)? -/
def hasKey (l : List (Str × JSValue)) (k : Str) : Bool :=
  (l.find? (fun kv => kv.1 == k)).isSome

/-- The body of the `try` block of `handleOne` (lines 287-295): the user
check, the validation, and the handler invocation, each of which can
throw a condition. -/
def tryBlock (jsonParse : Str → Option JSValue) (props : List (Str × Property))
    (requestParams : List (Str × JSValue))
    (handler : List JSValue → Except DenoError JSValue) : Except DenoError JSValue := do
  if hasKey requestParams (chars "$user") && !truthy (getJs requestParams (chars "$user")) then
    throw (.permissionDenied [])
  let params ← validate jsonParse props requestParams
  handler (params.map (fun kv => kv.2))

/-- The `try`/`catch` of `handleOne` (lines 287-327): a successful run
yields a 200 response with the serialized body; a condition thrown inside
is caught centrally and becomes one response whose status its class
determines, with the condition serialized (`JSON.stringify`, the
`stringifyErr` parameter) as the body.  Content-type selection for the
non-JSON returns (lines 296-305) never changes status or catch behaviour
and is absorbed into the `stringifyVal`/`ct` parameters. -/
def tryPhase (jsonParse : Str → Option JSValue) (stringifyVal : JSValue → Str)
    (stringifyErr : DenoError → Str) (ct : Str) (props : List (Str × Property))
    (requestParams : List (Str × JSValue))
    (handler : List JSValue → Except DenoError JSValue) : HttpResponse :=
  match tryBlock jsonParse props requestParams handler with
  | .ok v => ⟨200, stringifyVal v, ct⟩
  | .error e => ⟨errorStatus e, stringifyErr e, ct⟩

/-- Body decoding for the reserved `$body` parameter (lines 274-280): a
missing content-type header defaults to `application/json`; JSON and
form-encoded bodies are decoded, anything else is kept as raw text.
`request.json()` is the `jsonParse` parameter (`none` models a rejected
parse), `request.formData()` the total `formParse` parameter. -/
def decodeBody (jsonParse : Str → Option JSValue) (formParse : Str → List (Str × Str))
    (header : Option Str) (body : Str) : Option JSValue :=
  let ct := header.getD (chars "application/json")
  if (chars "application/json").isPrefixOf ct then jsonParse body
  else if (chars "application/x-www-form-urlencoded").isPrefixOf ct then
    some (.obj ((formParse body).map (fun kv => (kv.1, .str kv.2))))
  else some (.str body)

/-- Controller resolution in `handleMany` (lines 330-345): when the global
prefix matches, the chosen base is the first key, in the map's insertion
order, that is a prefix of the remaining pathname. -/
def handleManyResolve (keys : List Str) (gp pathname : Str) : Option Str :=
  if gp.isPrefixOf pathname then keys.find? (fun b => b.isPrefixOf (pathname.drop gp.length))
  else none

/-! ## Helper lemmas -/

/-- Number of occurrences of a character in a string. -/
def countCh (c : Char) : Str → Nat
  | [] => 0
  | a :: as => (if a = c then 1 else 0) + countCh c as

theorem splitOnChar_ne_nil (sep : Char) (l : Str) : splitOnChar sep l ≠ [] := by
  cases l with
  | nil => simp [splitOnChar]
  | cons c cs =>
    unfold splitOnChar
    cases splitOnChar sep cs with
    | nil => simp
    | cons t ts => by_cases h : c = sep <;> simp [h]

theorem length_splitOnChar (sep : Char) (l : Str) :
    (splitOnChar sep l).length = countCh sep l + 1 := by
  induction l with
  | nil => simp [splitOnChar, countCh]
  | cons c cs ih =>
    unfold splitOnChar countCh
    cases hsp : splitOnChar sep cs with
    | nil => exact absurd hsp (splitOnChar_ne_nil sep cs)
    | cons t ts =>
      rw [hsp] at ih
      simp only [List.length_cons] at ih
      by_cases h : c = sep <;> simp only [h, if_pos, if_neg, ite_true, ite_false,
        List.length_cons, if_true, if_false] <;> omega

theorem countCh_splitOnChar (ch sep : Char) (hne : ch ≠ sep) (l : Str) :
    ((splitOnChar sep l).map (countCh ch)).sum = countCh ch l := by
  induction l with
  | nil => simp [splitOnChar, countCh]
  | cons c cs ih =>
    unfold splitOnChar countCh
    cases hsp : splitOnChar sep cs with
    | nil => exact absurd hsp (splitOnChar_ne_nil sep cs)
    | cons t ts =>
      rw [hsp] at ih
      simp only [List.map_cons, List.sum_cons] at ih
      by_cases h : c = sep
      · have hcch : ¬ c = ch := fun hh => hne (hh ▸ h)
        simp only [h, ite_true, if_pos rfl, List.map_cons, List.sum_cons, countCh]
        simp only [h] at hcch
        simp [hcch, ih]
      · simp only [if_neg h, ite_false, List.map_cons, List.sum_cons, countCh]
        omega

theorem firstMatchPos_cons_neg (pat : Str) (c : Char) (cs : Str)
    (h : pat.isPrefixOf (c :: cs) = false) :
    firstMatchPos pat (c :: cs) = (firstMatchPos pat cs).map Nat.succ := by
  unfold firstMatchPos
  have hlen : (c :: cs).length + 1 = (cs.length + 1) + 1 := rfl
  rw [hlen, List.range_succ_eq_map]
  rw [List.find?_cons_of_neg _ (by simp [h])]
  rw [List.find?_map]
  have hfun : ((fun i => pat.isPrefixOf ((c :: cs).drop i)) ∘ Nat.succ) =
      (fun i => pat.isPrefixOf (cs.drop i)) := by
    funext i
    simp [Function.comp, List.drop_succ_cons]
  rw [hfun]

theorem replaceFirst_eq_replaceAtFirst (pat repl : Str) :
    ∀ s, replaceFirst pat repl s = replaceAtFirst pat repl s := by
  intro s
  induction s with
  | nil =>
    by_cases h : pat.isPrefixOf ([] : Str)
    · simp [replaceFirst, replaceAtFirst, firstMatchPos, h, List.range_succ_eq_map]
    · simp [replaceFirst, replaceAtFirst, firstMatchPos, h, List.range_succ_eq_map]
  | cons c cs ih =>
    by_cases h : pat.isPrefixOf (c :: cs)
    · have h0 : firstMatchPos pat (c :: cs) = some 0 := by
        unfold firstMatchPos
        rw [List.range_succ_eq_map]
        exact List.find?_cons_of_pos _ (by simpa using h)
      simp [replaceFirst, replaceAtFirst, h, h0]
    · have hF : pat.isPrefixOf (c :: cs) = false := by
        rw [← Bool.not_eq_true]; exact h
      have hL : replaceFirst pat repl (c :: cs) = c :: replaceFirst pat repl cs := by
        conv_lhs => rw [replaceFirst]
        rw [if_neg h]
      rw [hL, ih]
      unfold replaceAtFirst
      rw [firstMatchPos_cons_neg pat c cs hF]
      cases hm : firstMatchPos pat cs with
      | none => simp
      | some i =>
        simp only [Option.map]
        have h1 : (c :: cs).take (i + 1) = c :: cs.take i := rfl
        have h2 : Nat.succ i + pat.length = (i + pat.length) + 1 := by omega
        simp only [Nat.succ_eq_add_one] at h2 ⊢
        rw [h1, h2, List.drop_succ_cons]
        simp

/-! ## Claim C2 -/

/-- Claim C2 (counterexample): the name decoding does NOT turn every
`$`-initial token into a capture, nor every `_$_` into a `.` join.  In
`get_$a_$b` only the first `$` becomes `:` and the second token stays the
literal `$b`; in `get_a_$_b_$_c` only the first `_$_` becomes `.` and the
remainder decodes to the stray segments `:` and `c`. -/
theorem decodeRoute_every_marker_cex :
    decodeRoute [] (chars "get_$a_$b") = some ⟨chars "/:a/$b", chars "GET"⟩ ∧
    chars "/:a/$b" ≠ chars "/:a/:b" ∧
    decodeRoute [] (chars "get_a_$_b_$_c") = some ⟨chars "/a.b/:/c", chars "GET"⟩ ∧
    chars "/a.b/:/c" ≠ chars "/a.b.c" := by
  refine ⟨by decide, by decide, by decide, by decide⟩

/-- Claim C2 (amended): decoding a member name replaces only the
leftmost occurrence of `_$_` by a literal `.` join, and then only the
leftmost `$` of the resulting name by the capture marker `:`; every later
`$` token or `_$_` sequence is left verbatim.  Formally, `decodeRoute`
coincides with `decodeRouteSpec`, which splices the replacements in at
the smallest matching index; and on a name whose markers occur once, the
`$` token becomes a named capture and `_$_` becomes a `.` join. -/
theorem decodeRoute_first_occurrence :
    (∀ (base name : Str), decodeRoute base name = decodeRouteSpec base name) ∧
    decodeRoute (chars "/users") (chars "get_$id_avatar_$_png") =
      some ⟨chars "/users/:id/avatar.png", chars "GET"⟩ := by
  constructor
  · intro base name
    unfold decodeRoute decodeRouteSpec
    rw [replaceFirst_eq_replaceAtFirst, replaceFirst_eq_replaceAtFirst]
  · decide

/-! ## Claim C8 -/

/-- Claim C8: the type-inference function satisfies
`typeOf([]) = "unknown[]"`, `typeOf([1,"a"]) = "(number|string)[]"`
(distinct element types deduplicated, sorted, joined with `|`,
parenthesized, suffixed `[]`), and `typeOf({a:1,b:"x"}) =
"{a:number,b:string}"` with keys rendered in sorted order. -/
theorem typeOf_examples :
    typeOf (.arr []) true = chars "unknown[]" ∧
    typeOf (.arr [.num 1, .str (chars "a")]) true = chars "(number|string)[]" ∧
    typeOf (.obj [(chars "a", .num 1), (chars "b", .str (chars "x"))]) true =
      chars "\x7ba:number,b:string\x7d" := by
  refine ⟨by decide, by decide, by decide⟩

/-! ## Claim C10 -/

/-- Claim C10: when a route's schema declares `$body` and the incoming
request carries no content-type header, the body is decoded exactly as if
the header were `application/json`: it goes through `JSON.parse`, not raw
text. -/
theorem decodeBody_missing_header_is_json :
    ∀ (jsonParse : Str → Option JSValue) (formParse : Str → List (Str × Str)) (body : Str),
      decodeBody jsonParse formParse none body =
          decodeBody jsonParse formParse (some (chars "application/json")) body ∧
        decodeBody jsonParse formParse none body = jsonParse body := by
  intro jp fp body
  exact ⟨rfl, rfl⟩

/-! ## Claim C3 -/

/-- Claim C3 (counterexample): with a string-typed property (default
`"foo"`) and the raw request value carrying literal quote characters
around `bar`, `validate` returns the quoted value unchanged — the quotes
are NOT stripped. -/
theorem validate_quote_strip_cex :
    validate (fun _ => none) [(chars "s", ⟨chars "string", .str (chars "foo")⟩)]
        [(chars "s", .str (chars "\"bar\""))] =
      .ok [(chars "s", .str (chars "\"bar\""))] ∧
    chars "\"bar\"" ≠ chars "bar" := ⟨rfl, by decide⟩

/-- Claim C3 (amended): during VALIDATE, a property whose declared
default is a string is bound to the raw resolved request value completely
unchanged: no quote layer is ever stripped (no coercion branch applies to
string-typed defaults). -/
theorem validate_string_passthrough :
    ∀ (jsonParse : Str → Option JSValue) (fpn t d : Str) (req : List (Str × JSValue)),
      validate jsonParse [(fpn, ⟨t, .str d⟩)] req =
        .ok [(fpn, jsOr (getJs req fpn) (getJs req (kebabCase fpn)))] := by
  intro jp fpn t d req
  simp [validate, validateLoop, isUndef, typeofJs, setJs,
    show ((chars "string" == chars "boolean") = false) from rfl,
    show ((chars "string" == chars "number") = false) from rfl,
    show ((chars "string" == chars "object") = false) from rfl]

/-! ## Claim C7 -/

/-- Claim C7: for a property whose declared default is a number, a
request-supplied textual value that parses as an integer is coerced to
that number, while a textual value that does not parse raises InvalidData
naming the parameter, the raw value, and the expected type. -/
theorem validate_number_coercion :
    ∀ (jsonParse : Str → Option JSValue) (fpn t : Str) (dn : Int) (s : Str)
      (req : List (Str × JSValue)),
      getJs req fpn = .str s → s ≠ [] →
      (∀ m : Int, parseIntJS s = some m →
        validate jsonParse [(fpn, ⟨t, .num dn⟩)] req = .ok [(fpn, .num m)]) ∧
      (parseIntJS s = none →
        validate jsonParse [(fpn, ⟨t, .num dn⟩)] req =
          .error (.invalidData (chars "Parameter \x27" ++ fpn ++ chars "\x27 with value \x27" ++
            s ++ chars "\x27 is not of type \x27number\x27"))) := by
  intro jp fpn t dn s req hget hs
  have hrpv : jsOr (getJs req fpn) (getJs req (kebabCase fpn)) = .str s := by
    rw [hget]
    cases s with
    | nil => exact absurd rfl hs
    | cons a as => rfl
  constructor
  · intro m hm
    simp [validate, validateLoop, hrpv, isUndef, typeofJs, setJs, jsToString, hm,
      show ((chars "number" == chars "boolean") = false) from rfl,
      show ((chars "number" == chars "number") = true) from rfl]
  · intro hm
    simp [validate, validateLoop, hrpv, isUndef, typeofJs, setJs, jsToString, hm,
      show ((chars "number" == chars "boolean") = false) from rfl,
      show ((chars "number" == chars "number") = true) from rfl]

/-- Claim C7 (witness): with default `1`, the text `"5"` validates to the
number `5` and the text `"abc"` raises InvalidData. -/
theorem validate_number_coercion_witness :
    validate (fun _ => none) [(chars "limit", ⟨chars "number", .num 1⟩)]
        [(chars "limit", .str (chars "5"))] = .ok [(chars "limit", .num 5)] ∧
    validate (fun _ => none) [(chars "limit", ⟨chars "number", .num 1⟩)]
        [(chars "limit", .str (chars "abc"))] =
      .error (.invalidData (chars "Parameter \x27" ++ chars "limit" ++
        chars "\x27 with value \x27" ++ chars "abc" ++
        chars "\x27 is not of type \x27number\x27")) :=
  ⟨(validate_number_coercion (fun _ => none) (chars "limit") (chars "number") 1 (chars "5")
      [(chars "limit", .str (chars "5"))] rfl (by decide)).1 5 rfl,
   (validate_number_coercion (fun _ => none) (chars "limit") (chars "number") 1 (chars "abc")
      [(chars "limit", .str (chars "abc"))] rfl (by decide)).2 rfl⟩

/-! ## Claim C9 -/

/-- Claim C9: for a schema property with a defined (non-undefined)
default, when the request supplies no value under the property name or
its kebab-case alias, `validate` raises no error but binds the property
to `undefined` — the declared default is NOT substituted by `validate`
itself. -/
theorem validate_default_not_substituted :
    ∀ (jsonParse : Str → Option JSValue) (fpn : Str) (p : Property)
      (req : List (Str × JSValue)),
      p.default ≠ .undef → getJs req fpn = .undef → getJs req (kebabCase fpn) = .undef →
      validate jsonParse [(fpn, p)] req = .ok [(fpn, .undef)] := by
  intro jp fpn p req hd h1 h2
  have hrpv : jsOr (getJs req fpn) (getJs req (kebabCase fpn)) = .undef := by
    rw [h1, h2]; rfl
  have hu : isUndef p.default = false := by
    cases hp : p.default
    case undef => exact absurd hp hd
    all_goals rfl
  simp [validate, validateLoop, hrpv, hu, isUndef, setJs]

/-- Claim C9 (witness): a boolean-defaulted property absent from the
request validates to `undefined` without error. -/
theorem validate_default_not_substituted_witness :
    validate (fun _ => none) [(chars "sort", ⟨chars "boolean", .bool false⟩)] [] =
      .ok [(chars "sort", .undef)] :=
  validate_default_not_substituted (fun _ => none) (chars "sort")
    ⟨chars "boolean", .bool false⟩ [] (fun h => JSValue.noConfusion h) rfl rfl

/-! ## Claim C6 -/

/-- Claim C6: every condition thrown inside the dispatch `try` block
(user check, validation, or handler invocation) is caught centrally and
becomes exactly one response whose status its class determines —
AlreadyExists 409, InvalidData 400, NotFound 404, NotSupported 501,
PermissionDenied 401, anything else 500 — with the condition serialized
as the JSON body. -/
theorem tryPhase_error_mapping :
    (∀ (jsonParse : Str → Option JSValue) (stringifyVal : JSValue → Str)
       (stringifyErr : DenoError → Str) (ct : Str) (props : List (Str × Property))
       (requestParams : List (Str × JSValue))
       (handler : List JSValue → Except DenoError JSValue) (e : DenoError),
       tryBlock jsonParse props requestParams handler = .error e →
       tryPhase jsonParse stringifyVal stringifyErr ct props requestParams handler =
         ⟨errorStatus e, stringifyErr e, ct⟩) ∧
    (∀ m, errorStatus (.alreadyExists m) = 409) ∧
    (∀ m, errorStatus (.invalidData m) = 400) ∧
    (∀ m, errorStatus (.notFound m) = 404) ∧
    (∀ m, errorStatus (.notSupported m) = 501) ∧
    (∀ m, errorStatus (.permissionDenied m) = 401) ∧
    (∀ n m, errorStatus (.other n m) = 500) := by
  refine ⟨?_, fun _ => rfl, fun _ => rfl, fun _ => rfl, fun _ => rfl, fun _ => rfl,
    fun _ _ => rfl⟩
  intro jp sv se ct props rp h e herr
  unfold tryPhase
  rw [herr]

/-- Claim C6 (witness): a handler that throws NotFound produces the 404
response with the serialized condition as body. -/
theorem tryPhase_error_mapping_witness :
    tryPhase (fun _ => none) (fun _ => []) (fun _ => chars "serialized") jsonCT [] []
        (fun _ => .error (.notFound [])) =
      ⟨404, chars "serialized", jsonCT⟩ :=
  tryPhase_error_mapping.1 (fun _ => none) (fun _ => []) (fun _ => chars "serialized") jsonCT
    [] [] (fun _ => .error (.notFound [])) (.notFound []) rfl

/-! ## Claim C5 -/

/-- Claim C5: if no route matches both method and pattern but some
route's pattern matches the URL (necessarily under a different method),
the dispatcher responds 405 with an explanatory message; if no route's
pattern matches at all, it returns the "not handled" sentinel
(`undefined`) without raising any error. -/
theorem lookupPhase_405_and_sentinel :
    ∀ (names : List Str) (base method urlPath : Str),
      (matchRoute names base method urlPath = none →
        (∃ r ∈ extractRoutes names base,
          patternTest r.pathname urlPath = true ∧ r.method ≠ method) →
        lookupPhase names base method urlPath =
          .respond ⟨405,
            chars "\x7b\"message\":\"A route exists for this URL, but not for method \x27" ++
              method ++ chars "\x27\"\x7d",
            jsonCT⟩) ∧
      ((∀ r ∈ extractRoutes names base, patternTest r.pathname urlPath = false) →
        lookupPhase names base method urlPath = .notHandled) := by
  intro names base method urlPath
  constructor
  · intro hmr hex
    have hcount : 0 < countRoutes names base urlPath := by
      unfold countRoutes
      rw [List.countP_pos_iff]
      obtain ⟨r, hr, hpat, _⟩ := hex
      exact ⟨r, hr, hpat⟩
    unfold lookupPhase
    rw [hmr, if_pos hcount]
  · intro hall
    have hmr : matchRoute names base method urlPath = none := by
      unfold matchRoute
      rw [List.find?_eq_none]
      intro r hr
      simp [hall r hr]
    have hcount : countRoutes names base urlPath = 0 := by
      unfold countRoutes
      rw [List.countP_eq_zero]
      intro r hr
      simp [hall r hr]
    unfold lookupPhase
    rw [hmr, if_neg (by omega)]

/-- Claim C5 (witness): on the user routes, `DELETE /users/7` (only GET
exists) yields the 405 response, and a URL outside the routes yields the
sentinel. -/
theorem lookupPhase_405_and_sentinel_witness :
    lookupPhase [chars "get_$id"] (chars "/users") (chars "DELETE") (chars "/users/7") =
      .respond ⟨405,
        chars "\x7b\"message\":\"A route exists for this URL, but not for method \x27" ++
          chars "DELETE" ++ chars "\x27\"\x7d",
        jsonCT⟩ ∧
    lookupPhase [chars "get_$id"] (chars "/users") (chars "GET") (chars "/pets/7") =
      .notHandled :=
  ⟨(lookupPhase_405_and_sentinel [chars "get_$id"] (chars "/users") (chars "DELETE")
      (chars "/users/7")).1 (by decide)
      ⟨⟨chars "/users/:id", chars "GET"⟩, by decide, by decide, by decide⟩,
   (lookupPhase_405_and_sentinel [chars "get_$id"] (chars "/users") (chars "GET")
      (chars "/pets/7")).2 (by decide)⟩

/-! ## Claim C4 -/

/-- `find?` returns the first element satisfying the predicate: the list
decomposes around the result, with everything before it failing. -/
theorem find?_decomp {α : Type} (p : α → Bool) :
    ∀ (l : List α) (x : α), l.find? p = some x →
      ∃ pre post, l = pre ++ x :: post ∧ p x = true ∧ ∀ y ∈ pre, p y = false := by
  intro l
  induction l with
  | nil => intro x h; cases h
  | cons a t ih =>
    intro x h
    by_cases hpa : p a
    · rw [List.find?_cons_of_pos _ hpa] at h
      injection h with h
      subst h
      exact ⟨[], t, rfl, hpa, by intro y hy; cases hy⟩
    · rw [List.find?_cons_of_neg _ hpa] at h
      obtain ⟨pre, post, rfl, hx, hall⟩ := ih x h
      refine ⟨a :: pre, post, rfl, hx, ?_⟩
      intro y hy
      rcases List.mem_cons.mp hy with rfl | hmem
      · rw [← Bool.not_eq_true]; exact hpa
      · exact hall y hmem

/-- Claim C4 (counterexample): with controllers keyed `"/a"` then
`"/ab"` and remaining pathname `"/abc"`, both keys are prefixes and
`"/ab"` is the longer one, yet the dispatcher resolves `"/a"` — the
first key in insertion order, not the longest matching prefix. -/
theorem handleMany_longest_prefix_cex :
    handleManyResolve [chars "/a", chars "/ab"] [] (chars "/abc") = some (chars "/a") ∧
    (chars "/ab").isPrefixOf (chars "/abc") = true ∧
    (chars "/a").length < (chars "/ab").length := by
  refine ⟨by decide, by decide, by decide⟩

/-- Claim C4 (amended): when dispatching across a collection of
controllers keyed by base path, the dispatcher resolves the target
controller to the FIRST key in the map's insertion order that is a prefix
of the pathname remaining after the global prefix — not necessarily the
longest such key: every key listed before the chosen one fails the prefix
test. -/
theorem handleMany_first_prefix :
    ∀ (keys : List Str) (gp pathname k : Str),
      handleManyResolve keys gp pathname = some k →
      gp.isPrefixOf pathname = true ∧
      ∃ pre post, keys = pre ++ k :: post ∧
        k.isPrefixOf (pathname.drop gp.length) = true ∧
        ∀ b ∈ pre, b.isPrefixOf (pathname.drop gp.length) = false := by
  intro keys gp pathname k h
  unfold handleManyResolve at h
  by_cases hgp : gp.isPrefixOf pathname
  · rw [if_pos hgp] at h
    exact ⟨hgp, find?_decomp _ keys k h⟩
  · rw [if_neg hgp] at h
    cases h

/-- Claim C4 (witness): applying the first-prefix characterization at the
counterexample input. -/
theorem handleMany_first_prefix_witness :
    ([] : Str).isPrefixOf (chars "/abc") = true ∧
    ∃ pre post, [chars "/a", chars "/ab"] = pre ++ chars "/a" :: post ∧
      (chars "/a").isPrefixOf ((chars "/abc").drop (List.length ([] : Str))) = true ∧
      ∀ b ∈ pre, b.isPrefixOf ((chars "/abc").drop (List.length ([] : Str))) = false :=
  handleMany_first_prefix [chars "/a", chars "/ab"] [] (chars "/abc") (chars "/a") (by decide)

/-! ## Claim C1 -/

/-- Is this pattern segment a named capture (starts with `:`)? -/
def capSegB : Str → Bool
  | [] => false
  | a :: _ => a == ':'

/-- Segment lists agree pointwise, except that a capture segment on the
right may face any colon-free literal on the left. -/
def eqOrCapB : List Str → List Str → Bool
  | [], [] => true
  | p :: ps, q :: qs =>
    (p == q || (capSegB q && countCh ':' p == 0)) && eqOrCapB ps qs
  | _, _ => false

/-- The left segment list is a literal specialization of the right one:
same shape, at least one capture position of the right replaced by a
colon-free literal, every other position equal or similarly replaced. -/
def litSpecB : List Str → List Str → Bool
  | p :: ps, q :: qs =>
    (capSegB q && countCh ':' p == 0 && eqOrCapB ps qs) || (p == q && litSpecB ps qs)
  | _, _ => false

/-- One pathname is a literal specialization of the other's capture
position(s), segment-wise. -/
def litSpecialization (p q : Str) : Prop := litSpecB (segs p) (segs q) = true

instance (p q : Str) : Decidable (litSpecialization p q) := by
  unfold litSpecialization
  infer_instance

theorem capSegB_one_le_count (q : Str) (h : capSegB q = true) : 1 ≤ countCh ':' q := by
  cases q with
  | nil => cases h
  | cons a as =>
    have ha : a = ':' := by simpa [capSegB] using h
    simp [countCh, ha]

theorem eqOrCapB_sum_le :
    ∀ ps qs, eqOrCapB ps qs = true →
      (ps.map (countCh ':')).sum ≤ (qs.map (countCh ':')).sum := by
  intro ps
  induction ps with
  | nil =>
    intro qs h
    cases qs with
    | nil => simp
    | cons q qs => cases h
  | cons p ps ih =>
    intro qs h
    cases qs with
    | nil => cases h
    | cons q qs =>
      unfold eqOrCapB at h
      rw [Bool.and_eq_true, Bool.or_eq_true, Bool.and_eq_true] at h
      obtain ⟨h1, h2⟩ := h
      have hrest := ih qs h2
      simp only [List.map_cons, List.sum_cons]
      rcases h1 with heq | ⟨hcap, hzero⟩
      · rw [eq_of_beq heq]
        omega
      · have hc := capSegB_one_le_count q hcap
        have hz : countCh ':' p = 0 := by simpa using hzero
        omega

theorem litSpecB_sum_lt :
    ∀ ps qs, litSpecB ps qs = true →
      (ps.map (countCh ':')).sum < (qs.map (countCh ':')).sum := by
  intro ps
  induction ps with
  | nil => intro qs h; cases qs <;> cases h
  | cons p ps ih =>
    intro qs h
    cases qs with
    | nil => cases h
    | cons q qs =>
      unfold litSpecB at h
      rw [Bool.or_eq_true, Bool.and_eq_true, Bool.and_eq_true, Bool.and_eq_true] at h
      simp only [List.map_cons, List.sum_cons]
      rcases h with ⟨⟨hcap, hzero⟩, hrest⟩ | ⟨heq, hrec⟩
      · have hc := capSegB_one_le_count q hcap
        have hz : countCh ':' p = 0 := by simpa using hzero
        have hle := eqOrCapB_sum_le ps qs hrest
        omega
      · have := ih qs hrec
        rw [eq_of_beq heq]
        omega

theorem captures_eq_countCh (r : Route) : captures r = countCh ':' r.pathname := by
  unfold captures
  rw [length_splitOnChar]
  omega

theorem countCh_segs (p : Str) : ((segs p).map (countCh ':')).sum = countCh ':' p :=
  countCh_splitOnChar ':' '/' (by decide) p

theorem litSpecialization_captures_lt (r1 r2 : Route)
    (h : litSpecialization r1.pathname r2.pathname) : captures r1 < captures r2 := by
  rw [captures_eq_countCh, captures_eq_countCh, ← countCh_segs, ← countCh_segs]
  exact litSpecB_sum_lt _ _ h

theorem routeLE_refl (r : Route) : routeLE r r := Or.inr ⟨rfl, le_refl _⟩

theorem not_routeLE_of_captures_lt {r1 r2 : Route} (h : captures r1 < captures r2) :
    ¬ routeLE r2 r1 := by
  intro hle
  unfold routeLE at hle
  omega

theorem find?_ne_of_sorted (p : Route → Bool) (r1 r2 : Route) :
    ∀ l : List Route, l.Sorted routeLE → r1 ∈ l → p r1 = true → ¬ routeLE r2 r1 →
      l.find? p ≠ some r2 := by
  intro l
  induction l with
  | nil => intro _ h1 _ _; cases h1
  | cons a t ih =>
    intro hs h1 hp hnot h
    by_cases hpa : p a
    · rw [List.find?_cons_of_pos _ hpa] at h
      injection h with h
      subst h
      rcases List.mem_cons.mp h1 with rfl | hmem
      · exact hnot (routeLE_refl r1)
      · exact hnot ((List.sorted_cons.mp hs).1 r1 hmem)
    · rw [List.find?_cons_of_neg _ hpa] at h
      have h1t : r1 ∈ t := by
        rcases List.mem_cons.mp h1 with rfl | hmem
        · exact absurd hp hpa
        · exact hmem
      exact ih (List.sorted_cons.mp hs).2 h1t hp hnot h

/-- Claim C1: for every controller, the route list returned by
`extractRoutes` is sorted with primary key the number of named path
captures in the pathname (ascending) and tie-break the pathname length
(descending); consequently, for two routes with the same HTTP method
where one pathname is a literal specialization of the other's capture
position (e.g. `/users/admins` vs `/users/:id`), route lookup never
returns the capture route when the literal route matches — the literal
route is tried first. -/
theorem extractRoutes_specificity :
    ∀ (names : List Str) (base : Str),
      (extractRoutes names base).Sorted routeLE ∧
      ∀ (method urlPath : Str) (r1 r2 : Route),
        r1 ∈ extractRoutes names base → r2 ∈ extractRoutes names base →
        r1.method = method → r2.method = method →
        litSpecialization r1.pathname r2.pathname →
        patternTest r1.pathname urlPath = true →
        matchRoute names base method urlPath ≠ some r2 := by
  intro names base
  have hsorted : (extractRoutes names base).Sorted routeLE :=
    List.sorted_insertionSort routeLE (names.filterMap (decodeRoute base))
  refine ⟨hsorted, ?_⟩
  intro method urlPath r1 r2 h1 _h2 hm1 _hm2 hlit hpat
  have hp : (fun r => r.method == method && patternTest r.pathname urlPath) r1 = true := by
    simp [hm1, hpat]
  exact find?_ne_of_sorted _ r1 r2 _ hsorted h1 hp
    (not_routeLE_of_captures_lt (litSpecialization_captures_lt r1 r2 hlit))

/-- Claim C1 (witness): on a controller with members `get_admins` and
`get_$id` under base `/users`, looking up `GET /users/admins` does not
return the capture route `/users/:id`. -/
theorem extractRoutes_specificity_witness :
    matchRoute [chars "get_admins", chars "get_$id"] (chars "/users") (chars "GET")
        (chars "/users/admins") ≠
      some ⟨chars "/users/:id", chars "GET"⟩ :=
  (extractRoutes_specificity [chars "get_admins", chars "get_$id"] (chars "/users")).2
    (chars "GET") (chars "/users/admins")
    ⟨chars "/users/admins", chars "GET"⟩ ⟨chars "/users/:id", chars "GET"⟩
    (by decide) (by decide) (by decide) (by decide) (by decide) (by decide)
